import Mathlib

/-!
Shallow embedding of `src/src/modern_robotics.cpp` (namespace `mr`) over the
real numbers, together with proofs settling the frozen claims about the
library's specification.

Conventions:
* 3-vectors are `Fin 3 → ℝ`; 6-vectors ("twists"/"wrenches") are indexed by
  `Fin 3 ⊕ Fin 3`, `Sum.inl` being the angular entries 0..2 and `Sum.inr`
  the linear entries 3..5, exactly the layout of the C++ `VectorXf(6)`.
* 4×4 homogeneous transforms are indexed by `Fin 3 ⊕ Fin 1`, the `inl`
  block being the 3×3 rotation part and column `inr 0` the position.
* `float` arithmetic is modelled by exact real arithmetic; `v.norm()` is the
  euclidean norm written out as `Real.sqrt` of the sum of squares, exactly
  as Eigen computes it.
-/

namespace MR

open Matrix

noncomputable section

abbrev V3 := Fin 3 → ℝ
abbrev M3 := Matrix (Fin 3) (Fin 3) ℝ
abbrev Idx4 := Fin 3 ⊕ Fin 1
abbrev M4 := Matrix Idx4 Idx4 ℝ
abbrev Idx6 := Fin 3 ⊕ Fin 3
abbrev V6 := Idx6 → ℝ
abbrev M6 := Matrix Idx6 Idx6 ℝ

/-- `mr::NearZero`: |val| < .000001. -/
def NearZero (val : ℝ) : Prop := |val| < 1e-6

instance : DecidablePred NearZero := fun _ => Classical.dec _

/-- Euclidean norm of a 3-vector, `Eigen .norm()`. -/
def norm3 (v : V3) : ℝ := Real.sqrt (v 0 ^ 2 + v 1 ^ 2 + v 2 ^ 2)

/-- Frobenius norm of a 3×3 matrix, `Eigen .norm()` on a `Matrix3f`. -/
def frobNorm3 (m : M3) : ℝ :=
  Real.sqrt (m 0 0 ^ 2 + m 0 1 ^ 2 + m 0 2 ^ 2 +
             m 1 0 ^ 2 + m 1 1 ^ 2 + m 1 2 ^ 2 +
             m 2 0 ^ 2 + m 2 1 ^ 2 + m 2 2 ^ 2)

/-- The 3×3 rotation block `T.block<3,3>(0,0)` of a 4×4 transform. -/
def rotOf (T : M4) : M3 := T.toBlocks₁₁

/-- The position column `(T(0,3), T(1,3), T(2,3))` of a 4×4 transform. -/
def posOf (T : M4) : V3 := fun i => T (.inl i) (.inr 0)

/-- A 3-vector as a 3×1 column block. -/
def colV (p : V3) : Matrix (Fin 3) (Fin 1) ℝ := Matrix.of fun i _ => p i

/-- `mr::VecToso3`: skew-symmetric matrix of an angular-velocity vector. -/
def VecToso3 (omg : V3) : M3 :=
  !![0, -omg 2, omg 1;
     omg 2, 0, -omg 0;
     -omg 1, omg 0, 0]

/-- `mr::so3ToVec`: the vector `(m(2,1), m(0,2), m(1,0))` of a skew matrix. -/
def so3ToVec (so3mat : M3) : V3 := ![so3mat 2 1, so3mat 0 2, so3mat 1 0]

/-- `mr::Normalize`: `V.normalize()`, division of the vector by its norm. -/
def Normalize (V : V3) : V3 := fun i => V i / norm3 V

/-- `mr::AxisAng3`: the normalized axis together with `expc3.norm()`. -/
def AxisAng3 (expc3 : V3) : V3 × ℝ := (Normalize expc3, norm3 expc3)

/-- `mr::MatrixExp3`: Rodrigues' formula, with the near-zero guard of the code. -/
def MatrixExp3 (so3mat : M3) : M3 :=
  let omgtheta := so3ToVec so3mat
  if NearZero (frobNorm3 so3mat) then 1
  else
    let theta := (AxisAng3 omgtheta).2
    let omgmat := (1 / theta) • so3mat
    1 + Real.sin theta • omgmat + (1 - Real.cos theta) • (omgmat * omgmat)

/-- `mr::MatrixLog3`: matrix logarithm of a rotation matrix, with the code's
branch structure (`acosinput ≥ 1`, `acosinput ≤ -1` with the nested
`NearZero` tests on the diagonal of `I + R` in the order (2,2), (1,1), (0,0),
and the generic branch `θ/2/sin θ · (R - Rᵀ)`).  The C++ constant `M_PI` is
modelled by `Real.pi`. -/
def MatrixLog3 (R : M3) : M3 :=
  let acosinput := (R.trace - 1) / 2
  if acosinput ≥ 1 then 0
  else if acosinput ≤ -1 then
    let omg : V3 :=
      if ¬ NearZero (1 + R 2 2) then
        (1 / Real.sqrt (2 * (1 + R 2 2))) • ![R 0 2, R 1 2, 1 + R 2 2]
      else if ¬ NearZero (1 + R 1 1) then
        (1 / Real.sqrt (2 * (1 + R 1 1))) • ![R 0 1, 1 + R 1 1, R 2 1]
      else
        (1 / Real.sqrt (2 * (1 + R 0 0))) • ![1 + R 0 0, R 1 0, R 2 0]
    VecToso3 (Real.pi • omg)
  else
    let theta := Real.arccos acosinput
    (theta / 2 / Real.sin theta) • (R - Rᵀ)

/-- `mr::RpToTrans`: assemble `[[R, p], [0, 1]]`. -/
def RpToTrans (R : M3) (p : V3) : M4 :=
  Matrix.fromBlocks R (colV p) 0 1

/-- `mr::VecTose3`: the se(3) matrix `[[ [ω], v ], [0, 0]]` of a twist. -/
def VecTose3 (V : V6) : M4 :=
  Matrix.fromBlocks (VecToso3 fun i => V (.inl i)) (colV fun i => V (.inr i)) 0 0

/-- `mr::se3ToVec`: recover the twist from an se(3) matrix. -/
def se3ToVec (T : M4) : V6 :=
  Sum.elim ![T (.inl 2) (.inl 1), T (.inl 0) (.inl 2), T (.inl 1) (.inl 0)]
           ![T (.inl 0) (.inr 0), T (.inl 1) (.inr 0), T (.inl 2) (.inr 0)]

/-- `mr::Adjoint`: the 6×6 adjoint `[[R, 0], [ [p]·R, R ]]` of a transform. -/
def Adjoint (T : M4) : M6 :=
  Matrix.fromBlocks (rotOf T) 0 (VecToso3 (posOf T) * rotOf T) (rotOf T)

/-- `mr::TransInv`: the inverse `[[Rᵀ, -Rᵀp], [0, 1]]` of a transform. -/
def TransInv (transform : M4) : M4 :=
  Matrix.fromBlocks (rotOf transform)ᵀ
    (colV fun i => -(((rotOf transform)ᵀ).mulVec (posOf transform) i)) 0 1

/-- `mr::RotInv`: transpose of a rotation matrix. -/
def RotInv (rotMatrix : M3) : M3 := rotMatrixᵀ

/-- `mr::ad`: the 6×6 Lie-bracket matrix `[[ [ω], 0 ], [ [v], [ω] ]]`. -/
def ad (V : V6) : M6 :=
  Matrix.fromBlocks (VecToso3 fun i => V (.inl i)) 0
    (VecToso3 fun i => V (.inr i)) (VecToso3 fun i => V (.inl i))

/-- `mr::MatrixExp6`: exponential of an se(3) matrix, with the code's
near-zero branch `[[I, v], [0, 1]]` and the generic branch built from
`MatrixExp3` and the `G(θ)v` series. -/
def MatrixExp6 (se3mat : M4) : M4 :=
  let omgtheta := so3ToVec (rotOf se3mat)
  if NearZero (norm3 omgtheta) then
    Matrix.fromBlocks 1 (colV (posOf se3mat)) 0 1
  else
    let theta := (AxisAng3 omgtheta).2
    let omgmat := (1 / theta) • rotOf se3mat
    let expExpand : M3 :=
      theta • (1 : M3) + (1 - Real.cos theta) • omgmat
        + (theta - Real.sin theta) • (omgmat * omgmat)
    let GThetaV : V3 := fun i => (1 / theta) * expExpand.mulVec (posOf se3mat) i
    Matrix.fromBlocks (MatrixExp3 (rotOf se3mat)) (colV GThetaV) 0 1

/-- `mr::MatrixLog6`: logarithm of a transform, with the code's near-zero
branch on `‖MatrixLog3 R‖`. -/
def MatrixLog6 (T : M4) : M4 :=
  let omgmat := MatrixLog3 (rotOf T)
  if NearZero (frobNorm3 omgmat) then
    Matrix.fromBlocks 0 (colV (posOf T)) 0 0
  else
    let theta := Real.arccos (((rotOf T).trace - 1) / 2)
    let logExpand : M3 :=
      (1 - (1 / 2 : ℝ) • omgmat)
        + ((1 / theta - 1 / Real.tan (theta / 2) / 2) / theta) • (omgmat * omgmat)
    Matrix.fromBlocks omgmat (colV (logExpand.mulVec (posOf T))) 0 0

/-- `mr::AxisAng6`: divide the whole 6-vector by `θ`, the angular norm or,
when that is negligible, the linear norm; append `θ`.  The division is
exactly the code's `expc6 / theta`, with no guard on `theta = 0`. -/
def AxisAng6 (expc6 : V6) : V6 × ℝ :=
  let theta :=
    if NearZero (norm3 fun i => expc6 (.inl i)) then norm3 fun i => expc6 (.inr i)
    else norm3 fun i => expc6 (.inl i)
  (fun i => expc6 i / theta, theta)

/-- The divisor `theta` used by `AxisAng6` (the quantity the code divides by). -/
def axisAng6Divisor (expc6 : V6) : ℝ := (AxisAng6 expc6).2

/-- `mr::DistanceToSO3`: Frobenius distance of `MᵀM` from `I` when
`det M > 0`, else the sentinel `1.0e9`. -/
def DistanceToSO3 (M : M3) : ℝ :=
  if M.det > 0 then frobNorm3 (Mᵀ * M - 1) else 1.0e9

/-- `mr::TestIfSO3`: membership test `|DistanceToSO3 M| < 1e-3`. -/
def TestIfSO3 (M : M3) : Prop := |DistanceToSO3 M| < 1e-3

/-- `mr::CubicTimeScaling`: `s = 3r² - 2r³` with `r = t/Tf`. -/
def CubicTimeScaling (Tf t : ℝ) : ℝ :=
  let timeratio := 1.0 * t / Tf
  3 * timeratio ^ 2 - 2 * timeratio ^ 3

/-- `mr::QuinticTimeScaling`: `s = 10r³ - 15r⁴ + 6r⁵` with `r = t/Tf`. -/
def QuinticTimeScaling (Tf t : ℝ) : ℝ :=
  let timeratio := 1.0 * t / Tf
  10 * timeratio ^ 3 - 15 * timeratio ^ 4 + 6 * timeratio ^ 5

/-- `mr::FKinSpace`: the loop `for i = n-1 downto 0, T ← exp([Sᵢ]θᵢ)·T`
starting from `T = M`; the screw-axis columns and joint angles are paired
positionally. -/
def FKinSpace (M : M4) (Slist : List V6) (thetaList : List ℝ) : M4 :=
  (List.zipWith (fun s t => MatrixExp6 (VecTose3 (t • s))) Slist thetaList).foldr
    (fun E T => E * T) M

/-- `mr::FKinBody`: the loop `for i = 0 to n-1, T ← T·exp([Bᵢ]θᵢ)`. -/
def FKinBody (M : M4) (Blist : List V6) (thetaList : List ℝ) : M4 :=
  (List.zipWith (fun b t => MatrixExp6 (VecTose3 (t • b))) Blist thetaList).foldl
    (fun T E => T * E) M

/-- Helper for `JacobianSpace`: the loop body, carrying the accumulated
transform `T`; each column `i ≥ 1` is `Adjoint(T)·Sᵢ` with
`T = exp([S₀]θ₀)⋯exp([S_{i-1}]θ_{i-1})`. -/
def jacSpaceAux (T : M4) : List (V6 × ℝ) → List V6
  | [] => []
  | (s, t) :: rest =>
      (Adjoint T).mulVec s :: jacSpaceAux (T * MatrixExp6 (VecTose3 (t • s))) rest

/-- `mr::JacobianSpace` as the list of its columns: column 0 is `S₀`
unchanged, and column `i` is `Adjoint(exp([S₀]θ₀)⋯exp([S_{i-1}]θ_{i-1}))·Sᵢ`. -/
def JacobianSpace (Slist : List V6) (thetaList : List ℝ) : List V6 :=
  match List.zipWith Prod.mk Slist thetaList with
  | [] => []
  | (s0, t0) :: rest => s0 :: jacSpaceAux (MatrixExp6 (VecTose3 (t0 • s0))) rest

/-- Accumulated transform of the `JacobianBody` loop over the joints after
the current one: `exp(-[B_{k}]θ_{k})⋯exp(-[B_{i+1}]θ_{i+1})` built right to
left, exactly as the code's `T *= exp(-[B_{i+1}]θ_{i+1})` running from the
last joint downwards. -/
def jacBodyT : List (V6 × ℝ) → M4
  | [] => 1
  | (s, t) :: rest => jacBodyT rest * MatrixExp6 (VecTose3 (-(t • s)))

/-- `mr::JacobianBody` as the list of its columns: the last column is
`B_{n-1}` unchanged, and column `i` is `Adjoint(T)·Bᵢ` with `T` the product
of the negated exponentials of the later joints. -/
def JacobianBody (Blist : List V6) (thetaList : List ℝ) : List V6 :=
  (List.zipWith Prod.mk Blist thetaList).rec (motive := fun _ => List V6) []
    (fun p rest ih =>
      match rest with
      | [] => [p.1]
      | _ :: _ => (Adjoint (jacBodyT rest)).mulVec p.1 :: ih)

/-- The body-frame error twist of the `IKinBody` loop at iterate `θ`:
`Vb = se3ToVec(log(T_fk(θ)⁻¹ · T))`. -/
def ikBodyV (Blist : List V6) (M T : M4) (thetalist : List ℝ) : V6 :=
  se3ToVec (MatrixLog6 (TransInv (FKinBody M Blist thetalist) * T))

/-- The space-frame error twist of the `IKinSpace` loop at iterate `θ`:
`Vs = Adjoint(T_fk(θ)) · se3ToVec(log(T_fk(θ)⁻¹ · T))`. -/
def ikSpaceV (Slist : List V6) (M T : M4) (thetalist : List ℝ) : V6 :=
  (Adjoint (FKinSpace M Slist thetalist)).mulVec
    (se3ToVec (MatrixLog6 (TransInv (FKinSpace M Slist thetalist) * T)))

/-- The loop condition `err` of the inverse-kinematics routines: the angular
part of the error twist exceeds `eomg` or the linear part exceeds `ev`. -/
def ikErr (V : V6) (eomg ev : ℝ) : Prop :=
  norm3 (fun i => V (.inl i)) > eomg ∨ norm3 (fun i => V (.inr i)) > ev

instance (V : V6) (eomg ev : ℝ) : Decidable (ikErr V eomg ev) := Classical.dec _

/-- One Newton–Raphson update of `IKinBody`:
`θ ← θ + solve(J_b(θ), Vb(θ))`, where `solve` stands for Eigen's
least-squares (`bdcSvd`) solver, kept abstract. -/
def ikBodyUpdate (solve : List V6 → V6 → List ℝ) (Blist : List V6) (M T : M4)
    (thetalist : List ℝ) : List ℝ :=
  List.zipWith (· + ·) thetalist
    (solve (JacobianBody Blist thetalist) (ikBodyV Blist M T thetalist))

/-- The `while (err && i < maxiterations)` loop shared by `IKinBody` and
`IKinSpace`: while the error predicate holds and fuel remains, apply the
Newton–Raphson update; the returned flag is `!err` at the final iterate. -/
def nrLoop (err : List ℝ → Prop) [DecidablePred err]
    (update : List ℝ → List ℝ) : ℕ → List ℝ → Bool × List ℝ
  | fuel, thetalist =>
      if err thetalist then
        match fuel with
        | 0 => (false, thetalist)
        | fuel + 1 => nrLoop err update fuel (update thetalist)
      else (true, thetalist)

/-- `mr::IKinBody` with `maxiterations = 20`; the returned pair is the
success flag together with the final contents of the in/out parameter
`thetalist`. -/
def IKinBody (solve : List V6 → V6 → List ℝ) (Blist : List V6) (M T : M4)
    (thetalist : List ℝ) (eomg ev : ℝ) : Bool × List ℝ :=
  nrLoop (fun th => ikErr (ikBodyV Blist M T th) eomg ev)
    (ikBodyUpdate solve Blist M T) 20 thetalist

/-- One Newton–Raphson update of `IKinSpace`. -/
def ikSpaceUpdate (solve : List V6 → V6 → List ℝ) (Slist : List V6) (M T : M4)
    (thetalist : List ℝ) : List ℝ :=
  List.zipWith (· + ·) thetalist
    (solve (JacobianSpace Slist thetalist) (ikSpaceV Slist M T thetalist))

/-- `mr::IKinSpace` with `maxiterations = 20`. -/
def IKinSpace (solve : List V6 → V6 → List ℝ) (Slist : List V6) (M T : M4)
    (thetalist : List ℝ) (eomg ev : ℝ) : Bool × List ℝ :=
  nrLoop (fun th => ikErr (ikSpaceV Slist M T th) eomg ev)
    (ikSpaceUpdate solve Slist M T) 20 thetalist

/-! ### Dynamics: the Newton–Euler recursions of `InverseDynamics`

The model of an `n`-joint chain is given by `Mlist` (the `n+1` home
transforms, a C++ `std::vector<MatrixXf>`), `Glist` (the `n` spatial
inertias) and `Slist` (the `n` space-frame screw-axis columns); joint
vectors are maps `ℕ → ℝ` of which only the entries below `n` matter, as in
the C++ where they are length-`n` `VectorXf`s. -/

/-- The accumulated home transform `Mi = M₀₁·…·M_{i,i+1}` after iteration
`i` of the forward pass. -/
def idMi (Mlist : ℕ → M4) : ℕ → M4
  | 0 => 1 * Mlist 0
  | i + 1 => idMi Mlist i * Mlist (i + 1)

/-- The screw axis of joint `i` in its link frame:
`Ai.col(i) = Adjoint(TransInv(Mi))·Slist.col(i)`. -/
def idAi (Mlist : ℕ → M4) (Slist : ℕ → V6) (i : ℕ) : V6 :=
  (Adjoint (TransInv (idMi Mlist i))).mulVec (Slist i)

/-- The transforms `AdTi[i]` of the forward pass (for `i < n`), and the
pre-assigned `AdTi[n] = Adjoint(TransInv(Mlist[n]))`. -/
def idAdTi (n : ℕ) (Mlist : ℕ → M4) (Slist : ℕ → V6) (thetalist : ℕ → ℝ)
    (i : ℕ) : M6 :=
  if i = n then Adjoint (TransInv (Mlist n))
  else
    Adjoint
      (MatrixExp6 (VecTose3 ((-thetalist i) • idAi Mlist Slist i))
        * TransInv (Mlist i))

/-- The link twists `Vi` of the forward pass. -/
def idVi (n : ℕ) (Mlist : ℕ → M4) (Slist : ℕ → V6)
    (thetalist dthetalist : ℕ → ℝ) : ℕ → V6
  | 0 => 0
  | i + 1 =>
      (idAdTi n Mlist Slist thetalist i).mulVec
          (idVi n Mlist Slist thetalist dthetalist i)
        + dthetalist i • idAi Mlist Slist i

/-- The link accelerations `Vdi` of the forward pass; `Vdi.col(0)` is
`(0,0,0,-g)`. -/
def idVdi (n : ℕ) (Mlist : ℕ → M4) (Slist : ℕ → V6)
    (thetalist dthetalist ddthetalist : ℕ → ℝ) (g : V3) : ℕ → V6
  | 0 => Sum.elim 0 (-g)
  | i + 1 =>
      (idAdTi n Mlist Slist thetalist i).mulVec
          (idVdi n Mlist Slist thetalist dthetalist ddthetalist g i)
        + ddthetalist i • idAi Mlist Slist i
        + dthetalist i •
            (ad (idVi n Mlist Slist thetalist dthetalist (i + 1))).mulVec
              (idAi Mlist Slist i)

/-- The wrenches of the backward pass, counted from the tip: `idFi … k` is
the wrench `Fi` after `k` iterations of the backward loop, i.e. the wrench
at joint index `n - k`; `idFi … 0 = Ftip`. -/
def idFi (n : ℕ) (Mlist : ℕ → M4) (Glist : ℕ → M6) (Slist : ℕ → V6)
    (thetalist dthetalist ddthetalist : ℕ → ℝ) (g : V3) (Ftip : V6) : ℕ → V6
  | 0 => Ftip
  | k + 1 =>
      (idAdTi n Mlist Slist thetalist (n - k))ᵀ.mulVec
          (idFi n Mlist Glist Slist thetalist dthetalist ddthetalist g Ftip k)
        + (Glist (n - (k + 1))).mulVec
            (idVdi n Mlist Slist thetalist dthetalist ddthetalist g (n - k))
        - (ad (idVi n Mlist Slist thetalist dthetalist (n - k)))ᵀ.mulVec
            ((Glist (n - (k + 1))).mulVec
              (idVi n Mlist Slist thetalist dthetalist (n - k)))

/-- Dot product of two 6-vectors, `Fi.transpose() * Ai.col(i)`. -/
def dot6 (u v : V6) : ℝ := ∑ i, u i * v i

/-- `mr::InverseDynamics`: joint torque `i` is `Fᵢ · Aᵢ`, the wrench of the
backward pass paired with the link-frame screw axis. -/
def InverseDynamics (n : ℕ) (thetalist dthetalist ddthetalist : ℕ → ℝ)
    (g : V3) (Ftip : V6) (Mlist : ℕ → M4) (Glist : ℕ → M6) (Slist : ℕ → V6)
    (i : ℕ) : ℝ :=
  dot6 (idFi n Mlist Glist Slist thetalist dthetalist ddthetalist g Ftip (n - i))
       (idAi Mlist Slist i)

/-- `mr::GravityForces`: `InverseDynamics` at zero rates, accelerations and
tip wrench. -/
def GravityForces (n : ℕ) (thetalist : ℕ → ℝ) (g : V3)
    (Mlist : ℕ → M4) (Glist : ℕ → M6) (Slist : ℕ → V6) (i : ℕ) : ℝ :=
  InverseDynamics n thetalist 0 0 g 0 Mlist Glist Slist i

/-- `mr::MassMatrix`: column `j` is `InverseDynamics` with `ddthetalist`
the `j`-th unit vector and zero rates, gravity and tip wrench. -/
def MassMatrix (n : ℕ) (thetalist : ℕ → ℝ)
    (Mlist : ℕ → M4) (Glist : ℕ → M6) (Slist : ℕ → V6) :
    Matrix (Fin n) (Fin n) ℝ :=
  Matrix.of fun i j =>
    InverseDynamics n thetalist 0 (fun k => if k = (j : ℕ) then 1 else 0)
      0 0 Mlist Glist Slist (i : ℕ)

/-- `mr::VelQuadraticForces`: `InverseDynamics` at zero accelerations,
gravity and tip wrench. -/
def VelQuadraticForces (n : ℕ) (thetalist dthetalist : ℕ → ℝ)
    (Mlist : ℕ → M4) (Glist : ℕ → M6) (Slist : ℕ → V6) (i : ℕ) : ℝ :=
  InverseDynamics n thetalist dthetalist 0 0 0 Mlist Glist Slist i

/-- `mr::EndEffectorForces`: `InverseDynamics` at zero rates, accelerations
and gravity. -/
def EndEffectorForces (n : ℕ) (thetalist : ℕ → ℝ) (Ftip : V6)
    (Mlist : ℕ → M4) (Glist : ℕ → M6) (Slist : ℕ → V6) (i : ℕ) : ℝ :=
  InverseDynamics n thetalist 0 0 0 Ftip Mlist Glist Slist i

/-- `mr::ForwardDynamics`: solve `M(θ)·θ̈ = τ - c(θ,θ̇) - grav(θ) - JᵀFtip`.
The code's `ldlt().solve` is modelled by multiplication with the matrix
inverse, which agrees with it whenever the mass matrix is invertible. -/
def ForwardDynamics (n : ℕ) (thetalist dthetalist taulist : ℕ → ℝ)
    (g : V3) (Ftip : V6) (Mlist : ℕ → M4) (Glist : ℕ → M6) (Slist : ℕ → V6)
    (i : ℕ) : ℝ :=
  let totalForce : Fin n → ℝ := fun j =>
    taulist (j : ℕ) - VelQuadraticForces n thetalist dthetalist Mlist Glist Slist (j : ℕ)
      - GravityForces n thetalist g Mlist Glist Slist (j : ℕ)
      - EndEffectorForces n thetalist Ftip Mlist Glist Slist (j : ℕ)
  if h : i < n then (MassMatrix n thetalist Mlist Glist Slist)⁻¹.mulVec totalForce ⟨i, h⟩
  else 0

/-- `mr::EulerStep` on the joint position component. -/
def EulerStepPos (thetalist dthetalist : ℕ → ℝ) (dt : ℝ) : ℕ → ℝ :=
  fun i => thetalist i + dthetalist i * dt

/-- `mr::EulerStep` on the joint velocity component. -/
def EulerStepVel (dthetalist ddthetalist : ℕ → ℝ) (dt : ℝ) : ℕ → ℝ :=
  fun i => dthetalist i + ddthetalist i * dt

/-- `mr::ComputedTorque`: feedforward plus PID law
`M(θ)·(Kp·e + Ki·(eint + e) + Kd·(θ̇_d - θ̇)) + InverseDynamics(θ, θ̇, θ̈_d, g, 0)`,
with `e = θ_d - θ`. -/
def ComputedTorque (n : ℕ) (thetalist dthetalist eint : ℕ → ℝ) (g : V3)
    (Mlist : ℕ → M4) (Glist : ℕ → M6) (Slist : ℕ → V6)
    (thetalistd dthetalistd ddthetalistd : ℕ → ℝ) (Kp Ki Kd : ℝ) (i : ℕ) : ℝ :=
  let e : ℕ → ℝ := fun j => thetalistd j - thetalist j
  let fb : Fin n → ℝ := fun j =>
    Kp * e (j : ℕ) + Ki * (eint (j : ℕ) + e (j : ℕ))
      + Kd * (dthetalistd (j : ℕ) - dthetalist (j : ℕ))
  (if h : i < n then
    (MassMatrix n thetalist Mlist Glist Slist).mulVec fb ⟨i, h⟩
   else 0)
    + InverseDynamics n thetalist dthetalist ddthetalistd g 0 Mlist Glist Slist i

/-- One inner integration substep of `SimulateControl` (and of
`ForwardDynamicsTrajectory`): compute `θ̈ = ForwardDynamics(θ, θ̇, τ, …)`
and apply `EulerStep` with step `dt/intRes`. -/
def simSubStep (n : ℕ) (taulist : ℕ → ℝ) (g : V3) (Ftip : V6)
    (Mlist : ℕ → M4) (Glist : ℕ → M6) (Slist : ℕ → V6) (dt : ℝ)
    (s : (ℕ → ℝ) × (ℕ → ℝ)) : (ℕ → ℝ) × (ℕ → ℝ) :=
  (EulerStepPos s.1 s.2 dt,
   EulerStepVel s.2 (ForwardDynamics n s.1 s.2 taulist g Ftip Mlist Glist Slist) dt)

/-- The state of `SimulateControl` after `i` outer control steps:
`(thetacurrent, dthetacurrent, eint)`.  Each outer step computes the
computed-torque command from the *tilde* (controller's) model, integrates
the *true* model `intRes` substeps of size `dt/intRes`, and then accumulates
`eint += dt · (thetalistd(i) - thetacurrent)` with the just-updated
`thetacurrent`. -/
def simState (n : ℕ) (thetalist dthetalist : ℕ → ℝ) (g : V3)
    (Ftipmat : ℕ → V6) (Mlist : ℕ → M4) (Glist : ℕ → M6) (Slist : ℕ → V6)
    (thetamatd dthetamatd ddthetamatd : ℕ → ℕ → ℝ) (gtilde : V3)
    (Mtildelist : ℕ → M4) (Gtildelist : ℕ → M6) (Kp Ki Kd dt : ℝ)
    (intRes : ℕ) : ℕ → (ℕ → ℝ) × (ℕ → ℝ) × (ℕ → ℝ)
  | 0 => (thetalist, dthetalist, 0)
  | i + 1 =>
      let s := simState n thetalist dthetalist g Ftipmat Mlist Glist Slist
        thetamatd dthetamatd ddthetamatd gtilde Mtildelist Gtildelist Kp Ki Kd dt
        intRes i
      let taulist : ℕ → ℝ := ComputedTorque n s.1 s.2.1 s.2.2 gtilde
        Mtildelist Gtildelist Slist (thetamatd i) (dthetamatd i) (ddthetamatd i)
        Kp Ki Kd
      let s' := (simSubStep n taulist g (Ftipmat i) Mlist Glist Slist
        (dt / (intRes : ℝ)))^[intRes] (s.1, s.2.1)
      (s'.1, s'.2, fun k => s.2.2 k + dt * (thetamatd i k - s'.1 k))

/-! ### Definitions modelled from the spec's words (for refinement claims)

These do **not** come from the source; each follows the literal wording of a
spec sentence, to be compared against the embedded code. -/

/-- Modelled from the spec: the space-frame forward-kinematics formula read
with the *last* joint's exponential leftmost,
`T = exp([S_n]θ_n)·…·exp([S_1]θ_1)·M`, as claim C3 states it. -/
def fkSpaceLastLeftmost (M : M4) (Slist : List V6) (thetaList : List ℝ) : M4 :=
  (List.zipWith (fun s t => MatrixExp6 (VecTose3 (t • s))) Slist thetaList).reverse.foldr
    (fun E T => E * T) M

/-- Modelled from the spec: the `θ ≈ π` branch of `MatrixLog3` as claim C4
states it, selecting whichever diagonal term of `I + R` is farthest from
zero (ties resolved toward the later index, matching the code's preference
order (2,2), (1,1), (0,0)). -/
def matrixLog3FarthestDiag (R : M3) : M3 :=
  let d0 := |1 + R 0 0|
  let d1 := |1 + R 1 1|
  let d2 := |1 + R 2 2|
  let omg : V3 :=
    if d2 ≥ d1 ∧ d2 ≥ d0 then
      (1 / Real.sqrt (2 * (1 + R 2 2))) • ![R 0 2, R 1 2, 1 + R 2 2]
    else if d1 ≥ d0 then
      (1 / Real.sqrt (2 * (1 + R 1 1))) • ![R 0 1, 1 + R 1 1, R 2 1]
    else
      (1 / Real.sqrt (2 * (1 + R 0 0))) • ![1 + R 0 0, R 1 0, R 2 0]
  VecToso3 (Real.pi • omg)

/-- Modelled from the spec: the computed-torque law as claim C5 states it,
with the integral feedback term weighted by the passed-in integral error
*alone*: `M(θ)·(Kp·e + Ki·eint + Kd·(θ̇_d - θ̇)) + InverseDynamics(θ, θ̇, θ̈_d, g, 0)`. -/
def specComputedTorque (n : ℕ) (thetalist dthetalist eint : ℕ → ℝ) (g : V3)
    (Mlist : ℕ → M4) (Glist : ℕ → M6) (Slist : ℕ → V6)
    (thetalistd dthetalistd ddthetalistd : ℕ → ℝ) (Kp Ki Kd : ℝ) (i : ℕ) : ℝ :=
  let e : ℕ → ℝ := fun j => thetalistd j - thetalist j
  let fb : Fin n → ℝ := fun j =>
    Kp * e (j : ℕ) + Ki * eint (j : ℕ)
      + Kd * (dthetalistd (j : ℕ) - dthetalist (j : ℕ))
  (if h : i < n then
    (MassMatrix n thetalist Mlist Glist Slist).mulVec fb ⟨i, h⟩
   else 0)
    + InverseDynamics n thetalist dthetalist ddthetalistd g 0 Mlist Glist Slist i

end

/-! ## Theorems -/

section Theorems

open Matrix

lemma norm3_nonneg (v : V3) : 0 ≤ norm3 v := Real.sqrt_nonneg _

lemma norm3_zero : norm3 0 = 0 := by simp [norm3]

lemma norm3_eq_zero_iff {v : V3} : norm3 v = 0 ↔ v = 0 := by
  constructor
  · intro h
    have hle : v 0 ^ 2 + v 1 ^ 2 + v 2 ^ 2 ≤ 0 := by
      rwa [norm3, Real.sqrt_eq_zero'] at h
    have h0 : v 0 = 0 := by nlinarith [sq_nonneg (v 0), sq_nonneg (v 1), sq_nonneg (v 2)]
    have h1 : v 1 = 0 := by nlinarith [sq_nonneg (v 0), sq_nonneg (v 1), sq_nonneg (v 2)]
    have h2 : v 2 = 0 := by nlinarith [sq_nonneg (v 0), sq_nonneg (v 1), sq_nonneg (v 2)]
    funext i
    fin_cases i <;> assumption
  · rintro rfl; exact norm3_zero

lemma frobNorm3_nonneg (m : M3) : 0 ≤ frobNorm3 m := Real.sqrt_nonneg _

/-- **C9** (confirmed).  For every `Tf > 0`, both time-scaling laws take the
value 0 at `t = 0` and 1 at `t = Tf`, and they compute `3r² - 2r³`
respectively `10r³ - 15r⁴ + 6r⁵` with `r = t/Tf`. -/
theorem C9_time_scaling_boundary (Tf : ℝ) (hTf : 0 < Tf) :
    CubicTimeScaling Tf 0 = 0 ∧ CubicTimeScaling Tf Tf = 1 ∧
    QuinticTimeScaling Tf 0 = 0 ∧ QuinticTimeScaling Tf Tf = 1 ∧
    (∀ t, CubicTimeScaling Tf t = 3 * (t / Tf) ^ 2 - 2 * (t / Tf) ^ 3) ∧
    (∀ t, QuinticTimeScaling Tf t =
      10 * (t / Tf) ^ 3 - 15 * (t / Tf) ^ 4 + 6 * (t / Tf) ^ 5) := by
  have h : Tf ≠ 0 := hTf.ne'
  refine ⟨?_, ?_, ?_, ?_, fun t => ?_, fun t => ?_⟩ <;>
    norm_num [CubicTimeScaling, QuinticTimeScaling, div_self h]

/-- Witness for C9 at `Tf = 1`. -/
theorem C9_time_scaling_boundary_witness :
    (0:ℝ) < 1 ∧
    (CubicTimeScaling 1 0 = 0 ∧ CubicTimeScaling 1 1 = 1 ∧
     QuinticTimeScaling 1 0 = 0 ∧ QuinticTimeScaling 1 1 = 1 ∧
     (∀ t, CubicTimeScaling 1 t = 3 * (t / 1) ^ 2 - 2 * (t / 1) ^ 3) ∧
     (∀ t, QuinticTimeScaling 1 t =
       10 * (t / 1) ^ 3 - 15 * (t / 1) ^ 4 + 6 * (t / 1) ^ 5)) :=
  ⟨one_pos, C9_time_scaling_boundary 1 one_pos⟩

/-- **C8** (confirmed).  A non-positive determinant yields the sentinel
`1.0e9 ≥ 1e8` (and hence a failed membership test); a positive determinant
yields the Frobenius distance `‖MᵀM - I‖`; and `TestIfSO3` holds exactly
when the distance is below the absolute tolerance `1e-3`. -/
theorem C8_distance_to_SO3_sentinel (M : M3) :
    (M.det ≤ 0 →
      DistanceToSO3 M = 1.0e9 ∧ (1e8 : ℝ) ≤ 1.0e9 ∧ ¬ TestIfSO3 M) ∧
    (0 < M.det → DistanceToSO3 M = frobNorm3 (Mᵀ * M - 1)) ∧
    (TestIfSO3 M ↔ DistanceToSO3 M < 1e-3) := by
  have habs : |DistanceToSO3 M| = DistanceToSO3 M := by
    rw [abs_of_nonneg]
    by_cases h : 0 < M.det <;> simp [DistanceToSO3, h]
    · exact frobNorm3_nonneg _
    · norm_num
  refine ⟨fun h => ?_, fun h => ?_, ?_⟩
  · have hd : DistanceToSO3 M = 1.0e9 := by
      simp [DistanceToSO3, not_lt.mpr h]
    refine ⟨hd, by norm_num, ?_⟩
    rw [TestIfSO3, habs, hd]
    norm_num
  · simp [DistanceToSO3, h]
  · rw [TestIfSO3, habs]

/-- Witness for C8: the zero matrix hits the sentinel branch, the identity
hits the distance branch and passes the membership test. -/
theorem C8_distance_to_SO3_sentinel_witness :
    ((0 : M3).det ≤ 0 ∧ DistanceToSO3 0 = 1.0e9 ∧ ¬ TestIfSO3 0) ∧
    (0 < (1 : M3).det ∧ DistanceToSO3 1 = frobNorm3 ((1 : M3)ᵀ * 1 - 1) ∧
      TestIfSO3 1) := by
  have hdet0 : (0 : M3).det ≤ 0 := by simp
  have hdet1 : 0 < (1 : M3).det := by simp
  have h0 := (C8_distance_to_SO3_sentinel 0).1 hdet0
  have h1 := (C8_distance_to_SO3_sentinel 1).2.1 hdet1
  refine ⟨⟨hdet0, h0.1, h0.2.2⟩, hdet1, h1, ?_⟩
  rw [(C8_distance_to_SO3_sentinel 1).2.2, h1]
  have : (1 : M3)ᵀ * 1 - 1 = 0 := by simp
  rw [this]
  have : frobNorm3 0 = 0 := by simp [frobNorm3]
  rw [this]
  norm_num

/-- **C10** (confirmed).  `AxisAng6` divides the whole 6-vector by the
angular norm, or by the linear norm when the angular norm is below the
`1e-6` threshold; the divisor is nonzero whenever the angular norm is at
least `1e-6` or the linear part is nonzero, and it is exactly zero (with
the division still performed, unguarded) when the angular norm is below the
threshold and the linear part vanishes. -/
theorem C10_axisAng6_unguarded_division (V : V6) :
    ((1e-6 ≤ norm3 fun i => V (.inl i)) ∨ (fun i => V (.inr i)) ≠ 0 →
      axisAng6Divisor V ≠ 0 ∧
      (AxisAng6 V).1 = fun i => V i / axisAng6Divisor V) ∧
    ((norm3 fun i => V (.inl i)) < 1e-6 ∧ (fun i => V (.inr i)) = 0 →
      axisAng6Divisor V = 0 ∧
      (AxisAng6 V).1 = fun i => V i / 0) := by
  have habs : |norm3 fun i => V (.inl i)| = norm3 fun i => V (.inl i) :=
    abs_of_nonneg (norm3_nonneg _)
  constructor
  · intro h
    refine ⟨?_, rfl⟩
    by_cases hnz : NearZero (norm3 fun i => V (.inl i))
    · have hlin : (fun i => V (.inr i)) ≠ 0 := by
        rcases h with h | h
        · exfalso
          rw [NearZero, habs] at hnz
          linarith
        · exact h
      have : axisAng6Divisor V = norm3 fun i => V (.inr i) := by
        simp [axisAng6Divisor, AxisAng6, hnz]
      rw [this]
      exact fun hc => hlin (norm3_eq_zero_iff.mp hc)
    · have : axisAng6Divisor V = norm3 fun i => V (.inl i) := by
        simp [axisAng6Divisor, AxisAng6, hnz]
      rw [this]
      rw [NearZero, habs, not_lt] at hnz
      intro hc
      rw [hc] at hnz
      norm_num at hnz
  · rintro ⟨h1, h2⟩
    have hnz : NearZero (norm3 fun i => V (.inl i)) := by rwa [NearZero, habs]
    have hd : axisAng6Divisor V = norm3 fun i => V (.inr i) := by
      simp [axisAng6Divisor, AxisAng6, hnz]
    have hz : axisAng6Divisor V = 0 := by rw [hd, h2, norm3_zero]
    constructor
    · exact hz
    · have : (AxisAng6 V).1 = fun i => V i / axisAng6Divisor V := rfl
      rw [this, hz]

/-- Witness for C10: a unit angular twist has nonzero divisor; the zero
twist has divisor zero. -/
theorem C10_axisAng6_unguarded_division_witness :
    ((1e-6 ≤ norm3 fun i => (Sum.elim ![1, 0, 0] ![0, 0, 0] : V6) (.inl i)) ∧
      axisAng6Divisor (Sum.elim ![1, 0, 0] ![0, 0, 0]) ≠ 0) ∧
    (((norm3 fun i => (0 : V6) (.inl i)) < 1e-6 ∧ (fun i => (0 : V6) (.inr i)) = 0) ∧
      axisAng6Divisor (0 : V6) = 0) := by
  have h1 : (norm3 fun i => (Sum.elim ![1, 0, 0] ![0, 0, 0] : V6) (.inl i)) = 1 := by
    have : (fun i => (Sum.elim ![1, 0, 0] ![0, 0, 0] : V6) (.inl i)) = ![1, 0, 0] := by
      funext i; simp
    rw [this]
    simp [norm3]
  have h2 : (norm3 fun i => (0 : V6) (.inl i)) = 0 := by
    have : (fun i => (0 : V6) (.inl i)) = 0 := by funext i; simp
    rw [this, norm3_zero]
  constructor
  · have hh : (1e-6 : ℝ) ≤ norm3 fun i => (Sum.elim ![1, 0, 0] ![0, 0, 0] : V6) (.inl i) := by
      rw [h1]; norm_num
    exact ⟨hh, ((C10_axisAng6_unguarded_division _).1 (Or.inl hh)).1⟩
  · have hh : (norm3 fun i => (0 : V6) (.inl i)) < 1e-6 ∧
        (fun i => (0 : V6) (.inr i)) = 0 := by
      refine ⟨by rw [h2]; norm_num, by funext i; simp⟩
    exact ⟨hh, ((C10_axisAng6_unguarded_division _).2 hh).1⟩

lemma nrLoop_spec (err : List ℝ → Prop) [DecidablePred err] (u : List ℝ → List ℝ) :
    ∀ (fuel : ℕ) (th : List ℝ),
      (∃ k, k ≤ fuel ∧ (nrLoop err u fuel th).2 = u^[k] th) ∧
      ((nrLoop err u fuel th).1 = true ↔ ¬ err (nrLoop err u fuel th).2) := by
  intro fuel
  induction fuel with
  | zero =>
      intro th
      by_cases h : err th
      · exact ⟨⟨0, le_refl 0, by simp [nrLoop, h]⟩, by simp [nrLoop, h]⟩
      · exact ⟨⟨0, le_refl 0, by simp [nrLoop, h]⟩, by simp [nrLoop, h]⟩
  | succ m ih =>
      intro th
      by_cases h : err th
      · have heq : nrLoop err u (m + 1) th = nrLoop err u m (u th) := by
          simp [nrLoop, h]
        rw [heq]
        obtain ⟨⟨k, hk, hval⟩, hiff⟩ := ih (u th)
        refine ⟨⟨k + 1, Nat.succ_le_succ hk, ?_⟩, hiff⟩
        rw [hval, Function.iterate_succ_apply]
      · exact ⟨⟨0, Nat.zero_le _, by simp [nrLoop, h]⟩, by simp [nrLoop, h]⟩

lemma not_ikErr_iff (V : V6) (eomg ev : ℝ) :
    ¬ ikErr V eomg ev ↔
      norm3 (fun i => V (.inl i)) ≤ eomg ∧ norm3 (fun i => V (.inr i)) ≤ ev := by
  rw [ikErr, not_or, not_lt, not_lt]

/-- **C6** (confirmed).  Both inverse-kinematics routines perform at most 20
Newton–Raphson updates `θ ← θ + solve(J, V)` (for any least-squares solver
`solve`); the returned flag is `true` exactly when the *final* error twist
has angular norm ≤ `eomg` and linear norm ≤ `ev`; and the returned iterate
is in every case the last-computed one (some `k ≤ 20`-fold update of the
initial guess), so a caller must consult the flag. -/
theorem C6_ikin_cap_and_flag (solve : List V6 → V6 → List ℝ)
    (Blist Slist : List V6) (M T : M4) (th0 : List ℝ) (eomg ev : ℝ) :
    (∃ k, k ≤ 20 ∧
      (IKinBody solve Blist M T th0 eomg ev).2 = (ikBodyUpdate solve Blist M T)^[k] th0) ∧
    ((IKinBody solve Blist M T th0 eomg ev).1 = true ↔
      norm3 (fun i => ikBodyV Blist M T (IKinBody solve Blist M T th0 eomg ev).2 (.inl i)) ≤ eomg ∧
      norm3 (fun i => ikBodyV Blist M T (IKinBody solve Blist M T th0 eomg ev).2 (.inr i)) ≤ ev) ∧
    (∃ k, k ≤ 20 ∧
      (IKinSpace solve Slist M T th0 eomg ev).2 = (ikSpaceUpdate solve Slist M T)^[k] th0) ∧
    ((IKinSpace solve Slist M T th0 eomg ev).1 = true ↔
      norm3 (fun i => ikSpaceV Slist M T (IKinSpace solve Slist M T th0 eomg ev).2 (.inl i)) ≤ eomg ∧
      norm3 (fun i => ikSpaceV Slist M T (IKinSpace solve Slist M T th0 eomg ev).2 (.inr i)) ≤ ev) := by
  obtain ⟨hbit, hbflag⟩ :=
    nrLoop_spec (fun th => ikErr (ikBodyV Blist M T th) eomg ev)
      (ikBodyUpdate solve Blist M T) 20 th0
  obtain ⟨hsit, hsflag⟩ :=
    nrLoop_spec (fun th => ikErr (ikSpaceV Slist M T th) eomg ev)
      (ikSpaceUpdate solve Slist M T) 20 th0
  refine ⟨hbit, ?_, hsit, ?_⟩
  · rw [show (IKinBody solve Blist M T th0 eomg ev) =
      nrLoop (fun th => ikErr (ikBodyV Blist M T th) eomg ev)
        (ikBodyUpdate solve Blist M T) 20 th0 from rfl]
    rw [hbflag, not_ikErr_iff]
  · rw [show (IKinSpace solve Slist M T th0 eomg ev) =
      nrLoop (fun th => ikErr (ikSpaceV Slist M T th) eomg ev)
        (ikSpaceUpdate solve Slist M T) 20 th0 from rfl]
    rw [hsflag, not_ikErr_iff]

/-! ### Evaluation lemmas for concrete inputs -/

lemma so3ToVec_VecToso3 (w : V3) : so3ToVec (VecToso3 w) = w := by
  funext i
  fin_cases i <;> simp [so3ToVec, VecToso3]

lemma rotOf_fromBlocks (A : M3) (B : Matrix (Fin 3) (Fin 1) ℝ)
    (C : Matrix (Fin 1) (Fin 3) ℝ) (D : Matrix (Fin 1) (Fin 1) ℝ) :
    rotOf (Matrix.fromBlocks A B C D) = A :=
  Matrix.toBlocks_fromBlocks₁₁ A B C D

lemma posOf_fromBlocks (A : M3) (p : V3)
    (C : Matrix (Fin 1) (Fin 3) ℝ) (D : Matrix (Fin 1) (Fin 1) ℝ) :
    posOf (Matrix.fromBlocks A (colV p) C D) = p := rfl

lemma VecTose3_elim (a b : V3) :
    VecTose3 (Sum.elim a b) = Matrix.fromBlocks (VecToso3 a) (colV b) 0 0 := rfl

lemma NearZero_zero : NearZero 0 := by rw [NearZero]; norm_num

/-- The exponential of a pure-translation twist is `[[I, v], [0, 1]]`. -/
lemma MatrixExp6_translation (v : V3) :
    MatrixExp6 (VecTose3 (Sum.elim 0 v)) = Matrix.fromBlocks 1 (colV v) 0 1 := by
  have h0 : so3ToVec (rotOf (VecTose3 (Sum.elim (0 : V3) v))) = (0 : V3) := by
    rw [VecTose3_elim, rotOf_fromBlocks, so3ToVec_VecToso3]
  rw [MatrixExp6, h0, norm3_zero, if_pos NearZero_zero, VecTose3_elim, posOf_fromBlocks]

lemma norm3_z (c : ℝ) (hc : 0 ≤ c) : norm3 ![0, 0, c] = c := by
  rw [norm3]
  simp
  rw [Real.sqrt_sq hc]

/-- The exponential of the z-axis screw at angle `π/2`. -/
lemma MatrixExp6_rotZ_half_pi :
    MatrixExp6 (VecTose3 ((Real.pi / 2) • (Sum.elim ![0, 0, 1] ![0, 0, 0] : V6))) =
      Matrix.fromBlocks !![0, -1, 0; 1, 0, 0; 0, 0, 1] (colV 0) 0 1 := by
  have hpi := Real.pi_gt_three
  have hpos : (0 : ℝ) < Real.pi / 2 := by linarith
  have hs : (Real.pi / 2) • (Sum.elim ![0, 0, 1] ![0, 0, 0] : V6) =
      Sum.elim ![0, 0, Real.pi / 2] 0 := by
    funext i
    rcases i with i | i <;> fin_cases i <;> simp
  have hZ : ((1 / (Real.pi / 2)) • VecToso3 ![0, 0, Real.pi / 2] : M3) =
      VecToso3 ![0, 0, 1] := by
    ext i j
    fin_cases i <;> fin_cases j <;>
      (simp [VecToso3, Matrix.vecHead, Matrix.vecTail]; try field_simp)
  have hn3 : norm3 ![0, 0, Real.pi / 2] = Real.pi / 2 := norm3_z _ hpos.le
  have hnnz : ¬ NearZero (Real.pi / 2) := by
    rw [NearZero, abs_of_nonneg hpos.le]
    intro hlt
    linarith
  have hfrob : ¬ NearZero (frobNorm3 (VecToso3 ![0, 0, Real.pi / 2])) := by
    rw [NearZero, frobNorm3]
    have hle : (1 : ℝ) ≤ Real.sqrt ((VecToso3 ![0, 0, Real.pi / 2]) 0 0 ^ 2 +
        (VecToso3 ![0, 0, Real.pi / 2]) 0 1 ^ 2 + (VecToso3 ![0, 0, Real.pi / 2]) 0 2 ^ 2 +
        (VecToso3 ![0, 0, Real.pi / 2]) 1 0 ^ 2 + (VecToso3 ![0, 0, Real.pi / 2]) 1 1 ^ 2 +
        (VecToso3 ![0, 0, Real.pi / 2]) 1 2 ^ 2 + (VecToso3 ![0, 0, Real.pi / 2]) 2 0 ^ 2 +
        (VecToso3 ![0, 0, Real.pi / 2]) 2 1 ^ 2 + (VecToso3 ![0, 0, Real.pi / 2]) 2 2 ^ 2) := by
      rw [show (1 : ℝ) = Real.sqrt 1 from (Real.sqrt_one).symm]
      apply Real.sqrt_le_sqrt
      simp [VecToso3, Matrix.vecHead, Matrix.vecTail]
      nlinarith
    intro habs
    rw [abs_of_nonneg (Real.sqrt_nonneg _)] at habs
    linarith
  have hexp3 : MatrixExp3 (VecToso3 ![0, 0, Real.pi / 2]) =
      !![0, -1, 0; 1, 0, 0; 0, 0, 1] := by
    rw [MatrixExp3]
    rw [if_neg hfrob]
    simp only [AxisAng3, so3ToVec_VecToso3, hn3, hZ]
    rw [Real.sin_pi_div_two, Real.cos_pi_div_two]
    ext i j
    fin_cases i <;> fin_cases j <;>
      simp [VecToso3, Matrix.mul_apply, Fin.sum_univ_three, Matrix.one_apply,
        Matrix.vecHead, Matrix.vecTail]
  rw [hs, VecTose3_elim, MatrixExp6]
  rw [rotOf_fromBlocks, so3ToVec_VecToso3, hn3, if_neg hnnz]
  simp only [AxisAng3, so3ToVec_VecToso3, hn3]
  rw [posOf_fromBlocks, hexp3]
  ext i j
  rcases i with i | i <;> rcases j with j | j <;>
    simp [Matrix.fromBlocks_apply₁₁, Matrix.fromBlocks_apply₁₂,
      Matrix.fromBlocks_apply₂₁, Matrix.fromBlocks_apply₂₂, colV,
      Matrix.mulVec_zero]

lemma list_foldr_mul_eq_prod (l : List M4) (M : M4) :
    l.foldr (fun E T => E * T) M = l.prod * M := by
  induction l with
  | nil => simp
  | cons E l ih => simp [ih, List.prod_cons, mul_assoc]

/-- **C3 amended** (the product order corrected): `FKinSpace` computes
`exp([S₁]θ₁)·…·exp([S_n]θ_n)·M`, with the *first* joint's exponential as
the leftmost factor. -/
theorem C3_fkin_space_product_order (M : M4) (Slist : List V6) (thetaList : List ℝ) :
    FKinSpace M Slist thetaList =
      (List.zipWith (fun s t => MatrixExp6 (VecTose3 (t • s))) Slist thetaList).prod
        * M :=
  list_foldr_mul_eq_prod _ M

/-- **C3 counterexample**: for a z-rotation by `π/2` followed by a unit
x-translation, the code's result differs from the spec's claimed product
order `exp([S_n]θ_n)·…·exp([S_1]θ_1)·M`. -/
theorem C3_counterexample :
    FKinSpace 1 [Sum.elim ![0, 0, 1] ![0, 0, 0], Sum.elim ![0, 0, 0] ![1, 0, 0]]
        [Real.pi / 2, 1] ≠
      fkSpaceLastLeftmost 1
        [Sum.elim ![0, 0, 1] ![0, 0, 0], Sum.elim ![0, 0, 0] ![1, 0, 0]]
        [Real.pi / 2, 1] := by
  have hE2 : MatrixExp6 (VecTose3 ((1 : ℝ) • (Sum.elim ![0, 0, 0] ![1, 0, 0] : V6))) =
      Matrix.fromBlocks 1 (colV ![1, 0, 0]) 0 1 := by
    rw [one_smul]
    rw [show (Sum.elim ![0, 0, 0] ![1, 0, 0] : V6) = Sum.elim (0 : V3) ![1, 0, 0] by
      funext i
      rcases i with i | i
      · fin_cases i <;> simp
      · rfl]
    exact MatrixExp6_translation _
  have hL : ((Matrix.fromBlocks !![0, -1, 0; 1, 0, 0; 0, 0, 1] (colV 0) 0 1 *
      (Matrix.fromBlocks 1 (colV ![1, 0, 0]) 0 1 * 1) : M4)) (Sum.inl 0) (Sum.inr 0)
      = 0 := by
    rw [mul_one, Matrix.fromBlocks_multiply, Matrix.fromBlocks_apply₁₂]
    simp [Matrix.mul_apply, Fin.sum_univ_three, Fin.sum_univ_one, colV,
      Matrix.one_apply, Matrix.vecHead, Matrix.vecTail]
  have hR : ((Matrix.fromBlocks 1 (colV ![1, 0, 0]) 0 1 *
      (Matrix.fromBlocks !![0, -1, 0; 1, 0, 0; 0, 0, 1] (colV 0) 0 1 * 1) : M4))
      (Sum.inl 0) (Sum.inr 0) = 1 := by
    rw [mul_one, Matrix.fromBlocks_multiply, Matrix.fromBlocks_apply₁₂]
    simp [Matrix.mul_apply, Fin.sum_univ_three, Fin.sum_univ_one, colV,
      Matrix.one_apply, Matrix.vecHead, Matrix.vecTail]
  intro h
  have h2 := congrFun (congrFun h (Sum.inl 0)) (Sum.inr 0)
  rw [show FKinSpace 1
        [Sum.elim ![0, 0, 1] ![0, 0, 0], Sum.elim ![0, 0, 0] ![1, 0, 0]]
        [Real.pi / 2, 1] =
      MatrixExp6 (VecTose3 ((Real.pi / 2) • (Sum.elim ![0, 0, 1] ![0, 0, 0] : V6))) *
        (MatrixExp6 (VecTose3 ((1 : ℝ) • (Sum.elim ![0, 0, 0] ![1, 0, 0] : V6))) * 1)
      from rfl] at h2
  rw [show fkSpaceLastLeftmost 1
        [Sum.elim ![0, 0, 1] ![0, 0, 0], Sum.elim ![0, 0, 0] ![1, 0, 0]]
        [Real.pi / 2, 1] =
      MatrixExp6 (VecTose3 ((1 : ℝ) • (Sum.elim ![0, 0, 0] ![1, 0, 0] : V6))) *
        (MatrixExp6 (VecTose3 ((Real.pi / 2) • (Sum.elim ![0, 0, 1] ![0, 0, 0] : V6))) * 1)
      from rfl] at h2
  rw [MatrixExp6_rotZ_half_pi, hE2] at h2
  rw [hL, hR] at h2
  norm_num at h2

/-- **C4 amended**.  `MatrixLog3` returns `0` when `(tr R - 1)/2 ≥ 1`;
returns `θ/2/sin θ · (R - Rᵀ)` with `θ = arccos((tr R - 1)/2)` on the open
interval; and in the `θ ≈ π` regime builds the axis from the *first*
diagonal entry in the fixed order (2,2), (1,1), (0,0) whose `1 + R(i,i)`
is not negligible — which need not be the diagonal entry of `I + R`
farthest from zero. -/
theorem C4_matrix_log3_branches (R : M3) :
    ((R.trace - 1) / 2 ≥ 1 → MatrixLog3 R = 0) ∧
    (-1 < (R.trace - 1) / 2 → (R.trace - 1) / 2 < 1 →
      MatrixLog3 R = (Real.arccos ((R.trace - 1) / 2) / 2 /
        Real.sin (Real.arccos ((R.trace - 1) / 2))) • (R - Rᵀ)) ∧
    ((R.trace - 1) / 2 ≤ -1 → ¬ NearZero (1 + R 2 2) →
      MatrixLog3 R = VecToso3 (Real.pi •
        ((1 / Real.sqrt (2 * (1 + R 2 2))) • ![R 0 2, R 1 2, 1 + R 2 2]))) ∧
    ((R.trace - 1) / 2 ≤ -1 → NearZero (1 + R 2 2) → ¬ NearZero (1 + R 1 1) →
      MatrixLog3 R = VecToso3 (Real.pi •
        ((1 / Real.sqrt (2 * (1 + R 1 1))) • ![R 0 1, 1 + R 1 1, R 2 1]))) ∧
    ((R.trace - 1) / 2 ≤ -1 → NearZero (1 + R 2 2) → NearZero (1 + R 1 1) →
      MatrixLog3 R = VecToso3 (Real.pi •
        ((1 / Real.sqrt (2 * (1 + R 0 0))) • ![1 + R 0 0, R 1 0, R 2 0]))) := by
  refine ⟨fun h1 => ?_, fun hlo hhi => ?_, fun hle h22 => ?_,
    fun hle h22 h11 => ?_, fun hle h22 h11 => ?_⟩
  · rw [MatrixLog3, if_pos h1]
  · rw [MatrixLog3, if_neg (by linarith), if_neg (by linarith)]
  · rw [MatrixLog3, if_neg (by linarith), if_pos hle, if_pos h22]
  · rw [MatrixLog3, if_neg (by linarith), if_pos hle, if_neg (by simpa using h22),
      if_pos h11]
  · rw [MatrixLog3, if_neg (by linarith), if_pos hle, if_neg (by simpa using h22),
      if_neg (by simpa using h11)]

/-- Witness for C4: the identity hits the zero branch; the `π`-rotation
about the axis `(0, 4/5, -3/5)` hits the `(2,2)` sub-branch. -/
theorem C4_matrix_log3_branches_witness :
    (((1 : M3).trace - 1) / 2 ≥ 1 ∧ MatrixLog3 1 = 0) ∧
    (((!![-1, 0, 0; 0, 7/25, -24/25; 0, -24/25, -7/25] : M3).trace - 1) / 2 ≤ -1 ∧
      ¬ NearZero (1 + (!![-1, 0, 0; 0, 7/25, -24/25; 0, -24/25, -7/25] : M3) 2 2) ∧
      MatrixLog3 !![-1, 0, 0; 0, 7/25, -24/25; 0, -24/25, -7/25] =
        VecToso3 (Real.pi • ((1 / Real.sqrt
          (2 * (1 + (!![-1, 0, 0; 0, 7/25, -24/25; 0, -24/25, -7/25] : M3) 2 2))) •
          ![(!![-1, 0, 0; 0, 7/25, -24/25; 0, -24/25, -7/25] : M3) 0 2,
            (!![-1, 0, 0; 0, 7/25, -24/25; 0, -24/25, -7/25] : M3) 1 2,
            1 + (!![-1, 0, 0; 0, 7/25, -24/25; 0, -24/25, -7/25] : M3) 2 2]))) := by
  have htr1 : (((1 : M3).trace - 1) / 2 : ℝ) ≥ 1 := by
    rw [Matrix.trace_fin_three]
    simp [Matrix.one_apply]
  have htr2 : (((!![-1, 0, 0; 0, 7/25, -24/25; 0, -24/25, -7/25] : M3).trace - 1) / 2 : ℝ)
      ≤ -1 := by
    rw [Matrix.trace_fin_three]
    norm_num [Matrix.vecHead, Matrix.vecTail]
  have hnz : ¬ NearZero (1 + (!![-1, 0, 0; 0, 7/25, -24/25; 0, -24/25, -7/25] : M3) 2 2) := by
    rw [NearZero,
      show ((!![-1, 0, 0; 0, 7/25, -24/25; 0, -24/25, -7/25] : M3) 2 2) = (-7/25 : ℝ)
        from rfl,
      show (1 + (-7/25 : ℝ)) = 18/25 by norm_num,
      abs_of_nonneg (by norm_num : (0:ℝ) ≤ 18/25)]
    norm_num
  exact ⟨⟨htr1, (C4_matrix_log3_branches 1).1 htr1⟩,
    ⟨htr2, hnz, ((C4_matrix_log3_branches _).2.2.1 htr2 hnz)⟩⟩

/-- **C4 counterexample**: at the `π`-rotation about `(0, 4/5, -3/5)`, the
code's selected diagonal entry is `(2,2)` although `(1,1)` is the one
farthest from zero, and the two choices give *different* logarithms
(opposite axis signs), so `MatrixLog3` differs from the spec's
farthest-from-zero rule. -/
theorem C4_counterexample :
    MatrixLog3 !![-1, 0, 0; 0, 7/25, -24/25; 0, -24/25, -7/25] ≠
      matrixLog3FarthestDiag !![-1, 0, 0; 0, 7/25, -24/25; 0, -24/25, -7/25] := by
  set R0 : M3 := !![-1, 0, 0; 0, 7/25, -24/25; 0, -24/25, -7/25] with hR0
  have hpi := Real.pi_gt_three
  have htr2 : ((R0.trace - 1) / 2 : ℝ) ≤ -1 := by
    rw [hR0, Matrix.trace_fin_three]
    norm_num [Matrix.vecHead, Matrix.vecTail]
  have hd2 : |1 + R0 2 2| = 18/25 := by
    rw [show R0 2 2 = (-7/25 : ℝ) from rfl,
      show (1 + (-7/25 : ℝ)) = 18/25 by norm_num]
    exact abs_of_nonneg (by norm_num)
  have hd1 : |1 + R0 1 1| = 32/25 := by
    rw [show R0 1 1 = (7/25 : ℝ) from rfl,
      show (1 + (7/25 : ℝ)) = 32/25 by norm_num]
    exact abs_of_nonneg (by norm_num)
  have hd0 : |1 + R0 0 0| = 0 := by
    rw [show R0 0 0 = (-1 : ℝ) from rfl, show (1 + (-1 : ℝ)) = 0 by norm_num]
    exact abs_zero
  have hnz : ¬ NearZero (1 + R0 2 2) := by
    rw [NearZero, hd2]
    norm_num
  have hcode := (C4_matrix_log3_branches R0).2.2.1 htr2 hnz
  have hc1 : ¬ (|1 + R0 2 2| ≥ |1 + R0 1 1| ∧ |1 + R0 2 2| ≥ |1 + R0 0 0|) := by
    rw [hd2, hd1, hd0]
    norm_num
  have hc2 : |1 + R0 1 1| ≥ |1 + R0 0 0| := by
    rw [hd1, hd0]
    norm_num
  have hspec : matrixLog3FarthestDiag R0 =
      VecToso3 (Real.pi • ((1 / Real.sqrt (2 * (1 + R0 1 1))) •
        ![R0 0 1, 1 + R0 1 1, R0 2 1])) := by
    rw [matrixLog3FarthestDiag, if_neg hc1, if_pos hc2]
  have hLval : (MatrixLog3 R0) 0 2 = Real.pi * ((1 / (6/5 : ℝ)) * (-24/25)) := by
    rw [hcode,
      show (2 * (1 + R0 2 2) : ℝ) = (6/5)^2 by
        rw [show R0 2 2 = (-7/25 : ℝ) from rfl]; norm_num,
      Real.sqrt_sq (by norm_num : (0:ℝ) ≤ 6/5),
      show R0 1 2 = (-24/25 : ℝ) from rfl]
    rfl
  have hRval : (matrixLog3FarthestDiag R0) 0 2 = Real.pi * ((1 / (8/5 : ℝ)) * (32/25)) := by
    rw [hspec,
      show (2 * (1 + R0 1 1) : ℝ) = (8/5)^2 by
        rw [show R0 1 1 = (7/25 : ℝ) from rfl]; norm_num,
      Real.sqrt_sq (by norm_num : (0:ℝ) ≤ 8/5),
      show (1 + R0 1 1 : ℝ) = 32/25 by
        rw [show R0 1 1 = (7/25 : ℝ) from rfl]; norm_num]
    rfl
  intro h
  have h02 := congrFun (congrFun h 0) 2
  rw [hLval, hRval] at h02
  nlinarith [h02, hpi]

/-! ### Linearity of the Newton–Euler recursion

For a fixed configuration `thetalist` the transforms `AdTi` and axes `Ai`
are fixed, and the recursions for `Vdi` and `Fi` are affine in
`(ddthetalist, g, Ftip)`; the torque output therefore decomposes into the
velocity-quadratic, inertial, gravity and end-effector summands that
`ForwardDynamics` subtracts. -/

section DynLin

variable (n : ℕ) (Mlist : ℕ → M4) (Glist : ℕ → M6) (Slist : ℕ → V6)
variable (thetalist : ℕ → ℝ)

lemma idVi_zero_rates (i : ℕ) : idVi n Mlist Slist thetalist 0 i = 0 := by
  induction i with
  | zero => rfl
  | succ i ih =>
      rw [idVi, ih]
      simp [Matrix.mulVec_zero]

lemma idVdi_add (dth ddth₁ ddth₂ : ℕ → ℝ) (g₁ g₂ : V3) (i : ℕ) :
    idVdi n Mlist Slist thetalist dth (ddth₁ + ddth₂) (g₁ + g₂) i =
      idVdi n Mlist Slist thetalist dth ddth₁ g₁ i +
        idVdi n Mlist Slist thetalist 0 ddth₂ g₂ i := by
  induction i with
  | zero =>
      funext j
      rcases j with j | j <;> simp [idVdi] <;> ring
  | succ i ih =>
      simp only [idVdi, ih, idVi_zero_rates]
      funext j
      simp [Matrix.mulVec_add, Matrix.mulVec_zero, Pi.add_apply, Pi.smul_apply,
        smul_eq_mul]
      ring

lemma idFi_add (dth ddth₁ ddth₂ : ℕ → ℝ) (g₁ g₂ : V3) (Ft₁ Ft₂ : V6) (k : ℕ) :
    idFi n Mlist Glist Slist thetalist dth (ddth₁ + ddth₂) (g₁ + g₂) (Ft₁ + Ft₂) k =
      idFi n Mlist Glist Slist thetalist dth ddth₁ g₁ Ft₁ k +
        idFi n Mlist Glist Slist thetalist 0 ddth₂ g₂ Ft₂ k := by
  induction k with
  | zero => rfl
  | succ k ih =>
      simp only [idFi, ih, idVdi_add, idVi_zero_rates]
      funext j
      simp [Matrix.mulVec_add, Matrix.mulVec_zero, Pi.add_apply, Pi.sub_apply,
        Pi.smul_apply, smul_eq_mul]
      ring

lemma dot6_add_left (u v w : V6) : dot6 (u + v) w = dot6 u w + dot6 v w := by
  simp [dot6, Pi.add_apply, add_mul, Finset.sum_add_distrib]

lemma ID_add (dth ddth₁ ddth₂ : ℕ → ℝ) (g₁ g₂ : V3) (Ft₁ Ft₂ : V6) (i : ℕ) :
    InverseDynamics n thetalist dth (ddth₁ + ddth₂) (g₁ + g₂) (Ft₁ + Ft₂)
        Mlist Glist Slist i =
      InverseDynamics n thetalist dth ddth₁ g₁ Ft₁ Mlist Glist Slist i +
        InverseDynamics n thetalist 0 ddth₂ g₂ Ft₂ Mlist Glist Slist i := by
  rw [InverseDynamics, InverseDynamics, InverseDynamics, idFi_add, dot6_add_left]

lemma idVdi_smul (c : ℝ) (ddth : ℕ → ℝ) (i : ℕ) :
    idVdi n Mlist Slist thetalist 0 (c • ddth) 0 i =
      c • idVdi n Mlist Slist thetalist 0 ddth 0 i := by
  induction i with
  | zero =>
      funext j
      rcases j with j | j <;> simp [idVdi]
  | succ i ih =>
      simp only [idVdi, ih, idVi_zero_rates]
      funext j
      simp [Matrix.mulVec_smul, Matrix.mulVec_zero, Pi.add_apply, Pi.smul_apply,
        smul_eq_mul]
      ring

lemma idFi_smul (c : ℝ) (ddth : ℕ → ℝ) (k : ℕ) :
    idFi n Mlist Glist Slist thetalist 0 (c • ddth) 0 0 k =
      c • idFi n Mlist Glist Slist thetalist 0 ddth 0 0 k := by
  induction k with
  | zero =>
      funext j
      simp [idFi]
  | succ k ih =>
      simp only [idFi, ih, idVdi_smul, idVi_zero_rates]
      funext j
      simp [Matrix.mulVec_smul, Matrix.mulVec_zero, Pi.add_apply, Pi.sub_apply,
        Pi.smul_apply, smul_eq_mul]
      ring

lemma ID_smul (c : ℝ) (ddth : ℕ → ℝ) (i : ℕ) :
    InverseDynamics n thetalist 0 (c • ddth) 0 0 Mlist Glist Slist i =
      c * InverseDynamics n thetalist 0 ddth 0 0 Mlist Glist Slist i := by
  rw [InverseDynamics, InverseDynamics, idFi_smul]
  simp [dot6, Finset.mul_sum, Pi.smul_apply, smul_eq_mul, mul_assoc, mul_add]

lemma idVdi_zero (i : ℕ) :
    idVdi n Mlist Slist thetalist 0 0 0 i = 0 := by
  induction i with
  | zero =>
      funext j
      rcases j with j | j <;> simp [idVdi]
  | succ i ih =>
      rw [idVdi, ih, idVi_zero_rates]
      simp [Matrix.mulVec_zero]

lemma idFi_zero (k : ℕ) :
    idFi n Mlist Glist Slist thetalist 0 0 0 0 k = 0 := by
  induction k with
  | zero => rfl
  | succ k ih =>
      rw [idFi, ih, idVdi_zero, idVi_zero_rates]
      simp [Matrix.mulVec_zero]

lemma ID_zero (i : ℕ) :
    InverseDynamics n thetalist 0 0 0 0 Mlist Glist Slist i = 0 := by
  rw [InverseDynamics, idFi_zero]
  simp [dot6]

lemma idVdi_congr (dth ddth ddth' : ℕ → ℝ) (g : V3) :
    ∀ i, (∀ j, j < i → ddth j = ddth' j) →
      idVdi n Mlist Slist thetalist dth ddth g i =
        idVdi n Mlist Slist thetalist dth ddth' g i := by
  intro i
  induction i with
  | zero => intro _; rfl
  | succ i ih =>
      intro h
      rw [idVdi, idVdi, ih (fun j hj => h j (Nat.lt_succ_of_lt hj)),
        h i (Nat.lt_succ_self i)]

lemma idFi_congr (dth ddth ddth' : ℕ → ℝ) (g : V3) (Ft : V6)
    (h : ∀ j, j < n → ddth j = ddth' j) :
    ∀ k, idFi n Mlist Glist Slist thetalist dth ddth g Ft k =
      idFi n Mlist Glist Slist thetalist dth ddth' g Ft k := by
  intro k
  induction k with
  | zero => rfl
  | succ k ih =>
      rw [idFi, idFi, ih,
        idVdi_congr n Mlist Slist thetalist dth ddth ddth' g (n - k)
          (fun j hj => h j (lt_of_lt_of_le hj (Nat.sub_le n k)))]

lemma ID_congr (dth ddth ddth' : ℕ → ℝ) (g : V3) (Ft : V6) (i : ℕ)
    (h : ∀ j, j < n → ddth j = ddth' j) :
    InverseDynamics n thetalist dth ddth g Ft Mlist Glist Slist i =
      InverseDynamics n thetalist dth ddth' g Ft Mlist Glist Slist i := by
  rw [InverseDynamics, InverseDynamics,
    idFi_congr n Mlist Glist Slist thetalist dth ddth ddth' g Ft h]

lemma ID_sum (x : ℕ → ℝ) (i : ℕ) (s : Finset ℕ) :
    InverseDynamics n thetalist 0
        (fun j => ∑ k ∈ s, x k * (if j = k then 1 else 0)) 0 0
        Mlist Glist Slist i =
      ∑ k ∈ s, x k *
        InverseDynamics n thetalist 0 (fun j => if j = k then 1 else 0) 0 0
          Mlist Glist Slist i := by
  classical
  induction s using Finset.induction_on with
  | empty =>
      rw [show (fun j => ∑ k ∈ (∅ : Finset ℕ), x k * (if j = k then 1 else 0))
          = (0 : ℕ → ℝ) by funext j; simp]
      simp [ID_zero]
  | insert ha ih =>
      rename_i a s
      rw [show (fun j => ∑ k ∈ insert a s, x k * (if j = k then 1 else 0))
          = (x a • (fun j => if j = a then (1:ℝ) else 0) : ℕ → ℝ) +
            (fun j => ∑ k ∈ s, x k * (if j = k then 1 else 0)) by
        funext j
        rw [Finset.sum_insert ha]
        simp [Pi.add_apply, Pi.smul_apply, smul_eq_mul]]
      have hadd := ID_add n Mlist Glist Slist thetalist 0
        (x a • (fun j => if j = a then (1:ℝ) else 0) : ℕ → ℝ)
        (fun j => ∑ k ∈ s, x k * (if j = k then 1 else 0)) 0 0 0 0 i
      rw [show ((0 : V3) + 0) = (0 : V3) by simp,
        show ((0 : V6) + 0) = (0 : V6) by simp] at hadd
      rw [hadd, ih, ID_smul, Finset.sum_insert ha]

lemma ID_eq_massMatrix_mulVec (ddth : ℕ → ℝ) (i : Fin n) :
    InverseDynamics n thetalist 0 ddth 0 0 Mlist Glist Slist (i : ℕ) =
      (MassMatrix n thetalist Mlist Glist Slist).mulVec
        (fun j => ddth (j : ℕ)) i := by
  classical
  have hcongr : ∀ j, j < n → ddth j =
      (fun j' => ∑ k ∈ Finset.range n, ddth k * (if j' = k then 1 else 0)) j := by
    intro j hj
    show ddth j = ∑ k ∈ Finset.range n, ddth k * (if j = k then 1 else 0)
    rw [show (∑ k ∈ Finset.range n, ddth k * (if j = k then 1 else 0))
        = ∑ k ∈ Finset.range n, (if j = k then ddth k else 0) by
      refine Finset.sum_congr rfl fun k _ => ?_
      by_cases h : j = k <;> simp [h]]
    rw [Finset.sum_ite_eq (Finset.range n) j ddth]
    simp [Finset.mem_range.mpr hj]
  rw [ID_congr n Mlist Glist Slist thetalist 0 ddth _ 0 0 (i : ℕ) hcongr]
  rw [ID_sum]
  have hmv : (MassMatrix n thetalist Mlist Glist Slist).mulVec
      (fun j => ddth (j : ℕ)) i =
      ∑ j : Fin n,
        InverseDynamics n thetalist 0 (fun k => if k = (j : ℕ) then 1 else 0) 0 0
          Mlist Glist Slist (i : ℕ) * ddth (j : ℕ) := by
    simp [Matrix.mulVec, Matrix.dotProduct, MassMatrix]
  rw [hmv]
  rw [Fin.sum_univ_eq_sum_range
    (fun k => InverseDynamics n thetalist 0 (fun k' => if k' = k then 1 else 0) 0 0
      Mlist Glist Slist (i : ℕ) * ddth k) n]
  exact Finset.sum_congr rfl fun k _ => mul_comm _ _

lemma ID_decompose (dth ddth : ℕ → ℝ) (g : V3) (Ft : V6) (i : ℕ) :
    InverseDynamics n thetalist dth ddth g Ft Mlist Glist Slist i =
      VelQuadraticForces n thetalist dth Mlist Glist Slist i +
        InverseDynamics n thetalist 0 ddth 0 0 Mlist Glist Slist i +
        GravityForces n thetalist g Mlist Glist Slist i +
        EndEffectorForces n thetalist Ft Mlist Glist Slist i := by
  have h1 := ID_add n Mlist Glist Slist thetalist dth 0 ddth 0 g 0 Ft i
  have h2 := ID_add n Mlist Glist Slist thetalist 0 ddth 0 0 g 0 Ft i
  have h3 := ID_add n Mlist Glist Slist thetalist 0 0 0 g 0 0 Ft i
  simp only [zero_add, add_zero] at h1 h2 h3
  rw [h1, h2, h3]
  rw [VelQuadraticForces, GravityForces, EndEffectorForces]
  ring

end DynLin

/-- **C1 amended**.  Whenever the assembled mass matrix at `θ` is
invertible (in particular for any physically meaningful model), feeding the
torques of `InverseDynamics` back into `ForwardDynamics` recovers the joint
accelerations exactly (exact real arithmetic models "within floating
tolerance"). -/
theorem C1_forward_inverse_dynamics (n : ℕ)
    (thetalist dthetalist ddthetalist : ℕ → ℝ) (g : V3) (Ftip : V6)
    (Mlist : ℕ → M4) (Glist : ℕ → M6) (Slist : ℕ → V6)
    (hM : IsUnit (MassMatrix n thetalist Mlist Glist Slist).det) :
    ∀ i, i < n →
      ForwardDynamics n thetalist dthetalist
        (InverseDynamics n thetalist dthetalist ddthetalist g Ftip Mlist Glist Slist)
        g Ftip Mlist Glist Slist i = ddthetalist i := by
  intro i hi
  have htf : (fun j : Fin n =>
      InverseDynamics n thetalist dthetalist ddthetalist g Ftip Mlist Glist Slist
          (j : ℕ)
        - VelQuadraticForces n thetalist dthetalist Mlist Glist Slist (j : ℕ)
        - GravityForces n thetalist g Mlist Glist Slist (j : ℕ)
        - EndEffectorForces n thetalist Ftip Mlist Glist Slist (j : ℕ)) =
      (MassMatrix n thetalist Mlist Glist Slist).mulVec
        (fun j => ddthetalist (j : ℕ)) := by
    funext j
    have hd := ID_decompose n Mlist Glist Slist thetalist dthetalist ddthetalist
      g Ftip (j : ℕ)
    have hstep : InverseDynamics n thetalist dthetalist ddthetalist g Ftip
          Mlist Glist Slist (j : ℕ)
        - VelQuadraticForces n thetalist dthetalist Mlist Glist Slist (j : ℕ)
        - GravityForces n thetalist g Mlist Glist Slist (j : ℕ)
        - EndEffectorForces n thetalist Ftip Mlist Glist Slist (j : ℕ)
        = InverseDynamics n thetalist 0 ddthetalist 0 0 Mlist Glist Slist (j : ℕ) := by
      rw [hd]; ring
    rw [hstep, ID_eq_massMatrix_mulVec]
  simp only [ForwardDynamics]
  rw [dif_pos hi, htf, Matrix.mulVec_mulVec, Matrix.nonsing_inv_mul _ hM,
    Matrix.one_mulVec]

/-! ### Evaluation of the dynamics on a trivial one-joint model -/

lemma VecToso3_zero : VecToso3 0 = 0 := by
  ext i j
  fin_cases i <;> fin_cases j <;>
    simp [VecToso3, Matrix.vecHead, Matrix.vecTail]

lemma colV_zero : colV 0 = 0 := by
  ext i j
  simp [colV]

lemma rotOf_one : rotOf (1 : M4) = 1 := by
  ext i j
  simp [rotOf, Matrix.toBlocks₁₁, Matrix.one_apply, Sum.inl.injEq]

lemma posOf_one : posOf (1 : M4) = 0 := by
  funext i
  simp [posOf, Matrix.one_apply]

lemma TransInv_one : TransInv 1 = 1 := by
  rw [TransInv, rotOf_one, posOf_one, Matrix.transpose_one]
  rw [show (colV fun i => -((1 : M3).mulVec 0 i)) = colV 0 by
    funext j
    simp [colV, Matrix.mulVec_zero]]
  rw [colV_zero, Matrix.fromBlocks_one]

lemma Adjoint_one : Adjoint 1 = 1 := by
  rw [Adjoint, rotOf_one, posOf_one, VecToso3_zero, Matrix.zero_mul,
    Matrix.fromBlocks_one]

lemma elim_zero_zero : (Sum.elim (0 : V3) (0 : V3) : V6) = 0 := by
  funext i
  rcases i with i | i <;> rfl

lemma MatrixExp6_zero_twist : MatrixExp6 (VecTose3 (0 : V6)) = 1 := by
  rw [show (0 : V6) = Sum.elim (0 : V3) (0 : V3) from elim_zero_zero.symm,
    MatrixExp6_translation, colV_zero, Matrix.fromBlocks_one]

lemma trivial_idAi (S0 : V6) :
    idAi (fun _ => 1) (fun _ => S0) 0 = S0 := by
  rw [idAi, show idMi (fun _ => (1 : M4)) 0 = 1 by simp [idMi],
    TransInv_one, Adjoint_one, Matrix.one_mulVec]

lemma trivial_idAdTi_zero (S0 : V6) :
    idAdTi 1 (fun _ => 1) (fun _ => S0) 0 0 = 1 := by
  rw [idAdTi, if_neg (by norm_num : (0 : ℕ) ≠ 1), trivial_idAi]
  rw [show ((-(0 : ℕ → ℝ) 0) • S0) = (0 : V6) by simp]
  rw [MatrixExp6_zero_twist, TransInv_one, mul_one, Adjoint_one]

lemma trivial_idAdTi_one (S0 : V6) :
    idAdTi 1 (fun _ => 1) (fun _ => S0) 0 1 = 1 := by
  rw [idAdTi, if_pos rfl, TransInv_one, Adjoint_one]

lemma trivial_idVdi_one (S0 : V6) (ddth : ℕ → ℝ) :
    idVdi 1 (fun _ => 1) (fun _ => S0) 0 0 ddth 0 1 = ddth 0 • S0 := by
  have h0 : idVdi 1 (fun _ => 1) (fun _ => S0) 0 0 ddth 0 0 = 0 := by
    funext j
    rcases j with j | j <;> simp [idVdi]
  show idVdi 1 (fun _ => 1) (fun _ => S0) 0 0 ddth 0 (0 + 1) = ddth 0 • S0
  rw [idVdi, h0, trivial_idAdTi_zero, trivial_idAi]
  funext j
  simp [Matrix.mulVec_zero]

lemma trivial_idFi_one (S0 : V6) (ddth : ℕ → ℝ) :
    idFi 1 (fun _ => 1) (fun _ => 1) (fun _ => S0) 0 0 ddth 0 0 1 =
      ddth 0 • S0 := by
  show idFi 1 (fun _ => 1) (fun _ => 1) (fun _ => S0) 0 0 ddth 0 0 (0 + 1) =
    ddth 0 • S0
  rw [idFi]
  rw [trivial_idAdTi_one, trivial_idVdi_one,
    idVi_zero_rates 1 (fun _ => 1) (fun _ => S0) 0 1]
  rw [show idFi 1 (fun _ => 1) (fun _ => 1) (fun _ => S0) 0 0 ddth 0 0 0 = 0
    from rfl]
  funext j
  simp [Matrix.mulVec_zero, Matrix.transpose_one, Matrix.one_mulVec]

lemma trivial_model_ID (S0 : V6) (ddth : ℕ → ℝ) :
    InverseDynamics 1 0 0 ddth 0 0 (fun _ => 1) (fun _ => 1) (fun _ => S0) 0 =
      ddth 0 * dot6 S0 S0 := by
  rw [InverseDynamics, show (1 - 0 : ℕ) = 1 from rfl, trivial_idFi_one,
    trivial_idAi]
  simp [dot6, Finset.mul_sum, Pi.smul_apply, smul_eq_mul, mul_assoc, mul_add]

lemma trivial_model_mass (S0 : V6) :
    MassMatrix 1 0 (fun _ => 1) (fun _ => 1) (fun _ => S0) =
      Matrix.of (fun _ _ : Fin 1 => dot6 S0 S0) := by
  ext i j
  fin_cases i
  fin_cases j
  show InverseDynamics 1 0 0 (fun k => if k = ((0 : Fin 1) : ℕ) then 1 else 0)
    0 0 (fun _ => 1) (fun _ => 1) (fun _ => S0) 0 = dot6 S0 S0
  rw [trivial_model_ID]
  norm_num

lemma dot6_ez : dot6 (Sum.elim ![0, 0, 1] ![0, 0, 0] : V6)
    (Sum.elim ![0, 0, 1] ![0, 0, 0] : V6) = 1 := by
  rw [dot6, Fintype.sum_sum_type]
  simp [Fin.sum_univ_three]

lemma mass_ez_det : (MassMatrix 1 0 (fun _ => 1) (fun _ => 1)
    (fun _ => (Sum.elim ![0, 0, 1] ![0, 0, 0] : V6))).det = 1 := by
  rw [Matrix.det_fin_one, trivial_model_mass]
  simp [dot6_ez]

/-- Witness for C1 on a trivial one-joint model with identity home
transforms and inertia and the z-axis screw: the mass matrix is `[[1]]`,
and `ForwardDynamics ∘ InverseDynamics` returns the acceleration `1`. -/
theorem C1_forward_inverse_dynamics_witness :
    IsUnit (MassMatrix 1 0 (fun _ => 1) (fun _ => 1)
        (fun _ => (Sum.elim ![0, 0, 1] ![0, 0, 0] : V6))).det ∧
    ForwardDynamics 1 0 0
        (InverseDynamics 1 0 0 (fun _ => 1) 0 0 (fun _ => 1) (fun _ => 1)
          (fun _ => (Sum.elim ![0, 0, 1] ![0, 0, 0] : V6)))
        0 0 (fun _ => 1) (fun _ => 1)
        (fun _ => (Sum.elim ![0, 0, 1] ![0, 0, 0] : V6)) 0 = 1 := by
  have hdet : IsUnit (MassMatrix 1 0 (fun _ => 1) (fun _ => 1)
      (fun _ => (Sum.elim ![0, 0, 1] ![0, 0, 0] : V6))).det := by
    rw [mass_ez_det]
    exact isUnit_one
  exact ⟨hdet,
    C1_forward_inverse_dynamics 1 0 0 (fun _ => 1) 0 0 _ _ _ hdet 0 (by norm_num)⟩

lemma idFi_zero_G (n : ℕ) (Mlist : ℕ → M4) (Slist : ℕ → V6)
    (th dth ddth : ℕ → ℝ) (g : V3) :
    ∀ k, idFi n Mlist (fun _ => 0) Slist th dth ddth g 0 k = 0 := by
  intro k
  induction k with
  | zero => rfl
  | succ k ih =>
      rw [idFi, ih]
      funext j
      simp [Matrix.mulVec_zero, Matrix.zero_mulVec]

lemma ID_zero_G (n : ℕ) (Mlist : ℕ → M4) (Slist : ℕ → V6)
    (th dth ddth : ℕ → ℝ) (g : V3) (i : ℕ) :
    InverseDynamics n th dth ddth g 0 Mlist (fun _ => 0) Slist i = 0 := by
  rw [InverseDynamics, idFi_zero_G]
  simp [dot6]

/-- **C1 counterexample**: with all-zero spatial inertias (a degenerate
model the claim's quantifier admits), every torque is zero, the mass matrix
is singular, and `ForwardDynamics` returns `0` instead of the requested
acceleration `1`. -/
theorem C1_counterexample :
    ForwardDynamics 1 0 0
        (InverseDynamics 1 0 0 (fun _ => 1) 0 0 (fun _ => 1) (fun _ => 0)
          (fun _ => (Sum.elim ![0, 0, 1] ![0, 0, 0] : V6)))
        0 0 (fun _ => 1) (fun _ => 0)
        (fun _ => (Sum.elim ![0, 0, 1] ![0, 0, 0] : V6)) 0 ≠
      (fun _ => (1 : ℝ)) 0 := by
  have hFD : ForwardDynamics 1 0 0
      (InverseDynamics 1 0 0 (fun _ => 1) 0 0 (fun _ => 1) (fun _ => 0)
        (fun _ => (Sum.elim ![0, 0, 1] ![0, 0, 0] : V6)))
      0 0 (fun _ => 1) (fun _ => 0)
      (fun _ => (Sum.elim ![0, 0, 1] ![0, 0, 0] : V6)) 0 = 0 := by
    simp only [ForwardDynamics]
    rw [dif_pos (by norm_num : (0 : ℕ) < 1)]
    rw [show (fun j : Fin 1 =>
        InverseDynamics 1 0 0 (fun _ => 1) 0 0 (fun _ => 1) (fun _ => 0)
            (fun _ => (Sum.elim ![0, 0, 1] ![0, 0, 0] : V6)) (j : ℕ)
          - VelQuadraticForces 1 0 0 (fun _ => 1) (fun _ => 0)
              (fun _ => (Sum.elim ![0, 0, 1] ![0, 0, 0] : V6)) (j : ℕ)
          - GravityForces 1 0 0 (fun _ => 1) (fun _ => 0)
              (fun _ => (Sum.elim ![0, 0, 1] ![0, 0, 0] : V6)) (j : ℕ)
          - EndEffectorForces 1 0 0 (fun _ => 1) (fun _ => 0)
              (fun _ => (Sum.elim ![0, 0, 1] ![0, 0, 0] : V6)) (j : ℕ)) =
        (0 : Fin 1 → ℝ) by
      funext j
      simp [VelQuadraticForces, GravityForces, EndEffectorForces, ID_zero_G]]
    rw [Matrix.mulVec_zero]
    rfl
  rw [hFD]
  norm_num

/-- **C5 amended**.  `ComputedTorque` weights the integral feedback by
`eint + e` — the passed-in integral error *plus the current error* — not by
`eint` alone:
`τ = M(θ)·(Kp·e + Ki·(eint + e) + Kd·(θ̇_d - θ̇)) + InverseDynamics(θ, θ̇, θ̈_d, g, 0)`;
and `SimulateControl` accumulates the integral error by explicit Euler,
`eint ← eint + dt·(θ_d(i) - θ)` with `θ` the just-integrated position. -/
theorem C5_computed_torque_law (n : ℕ) (th dth eint : ℕ → ℝ) (g : V3)
    (Mlist : ℕ → M4) (Glist : ℕ → M6) (Slist : ℕ → V6)
    (thd dthd ddthd : ℕ → ℝ) (Kp Ki Kd : ℝ) (i : ℕ) (h : i < n)
    (th0 dth0 : ℕ → ℝ) (Ftipmat : ℕ → V6) (thmatd dthmatd ddthmatd : ℕ → ℕ → ℝ)
    (gtilde : V3) (Mt : ℕ → M4) (Gt : ℕ → M6) (dt : ℝ) (intRes : ℕ)
    (istep : ℕ) :
    ComputedTorque n th dth eint g Mlist Glist Slist thd dthd ddthd Kp Ki Kd i =
      (MassMatrix n th Mlist Glist Slist).mulVec
        (fun j => Kp * (thd (j : ℕ) - th (j : ℕ))
          + Ki * (eint (j : ℕ) + (thd (j : ℕ) - th (j : ℕ)))
          + Kd * (dthd (j : ℕ) - dth (j : ℕ))) ⟨i, h⟩
        + InverseDynamics n th dth ddthd g 0 Mlist Glist Slist i ∧
    (simState n th0 dth0 g Ftipmat Mlist Glist Slist thmatd dthmatd ddthmatd
        gtilde Mt Gt Kp Ki Kd dt intRes (istep + 1)).2.2 =
      (fun k =>
        (simState n th0 dth0 g Ftipmat Mlist Glist Slist thmatd dthmatd ddthmatd
            gtilde Mt Gt Kp Ki Kd dt intRes istep).2.2 k +
          dt * (thmatd istep k -
            (simState n th0 dth0 g Ftipmat Mlist Glist Slist thmatd dthmatd
              ddthmatd gtilde Mt Gt Kp Ki Kd dt intRes (istep + 1)).1 k)) := by
  constructor
  · simp only [ComputedTorque]
    rw [dif_pos h]
  · rfl

/-- Witness for C5 on the trivial one-joint model. -/
theorem C5_computed_torque_law_witness :
    (0 : ℕ) < 1 ∧
    (ComputedTorque 1 0 0 (fun _ => 1) 0 (fun _ => 1) (fun _ => 1)
        (fun _ => (Sum.elim ![0, 0, 1] ![0, 0, 0] : V6))
        (fun _ => 1) 0 0 0 1 0 0 =
      (MassMatrix 1 0 (fun _ => 1) (fun _ => 1)
          (fun _ => (Sum.elim ![0, 0, 1] ![0, 0, 0] : V6))).mulVec
        (fun j => 0 * ((fun _ => (1:ℝ)) (j : ℕ) - (0 : ℕ → ℝ) (j : ℕ))
          + 1 * ((fun _ => (1:ℝ)) (j : ℕ) +
              ((fun _ => (1:ℝ)) (j : ℕ) - (0 : ℕ → ℝ) (j : ℕ)))
          + 0 * ((0 : ℕ → ℝ) (j : ℕ) - (0 : ℕ → ℝ) (j : ℕ))) ⟨0, by norm_num⟩
        + InverseDynamics 1 0 0 0 0 0 (fun _ => 1) (fun _ => 1)
            (fun _ => (Sum.elim ![0, 0, 1] ![0, 0, 0] : V6)) 0 ∧
      (simState 1 0 0 0 (fun _ => 0) (fun _ => 1) (fun _ => 1)
          (fun _ => (Sum.elim ![0, 0, 1] ![0, 0, 0] : V6))
          (fun _ => 0) (fun _ => 0) (fun _ => 0) 0 (fun _ => 1) (fun _ => 1)
          0 1 0 1 0 (0 + 1)).2.2 =
        (fun k =>
          (simState 1 0 0 0 (fun _ => 0) (fun _ => 1) (fun _ => 1)
              (fun _ => (Sum.elim ![0, 0, 1] ![0, 0, 0] : V6))
              (fun _ => 0) (fun _ => 0) (fun _ => 0) 0 (fun _ => 1) (fun _ => 1)
              0 1 0 1 0 0).2.2 k +
            1 * ((fun _ => (0 : ℕ → ℝ)) 0 k -
              (simState 1 0 0 0 (fun _ => 0) (fun _ => 1) (fun _ => 1)
                (fun _ => (Sum.elim ![0, 0, 1] ![0, 0, 0] : V6))
                (fun _ => 0) (fun _ => 0) (fun _ => 0) 0 (fun _ => 1) (fun _ => 1)
                0 1 0 1 0 (0 + 1)).1 k))) :=
  ⟨by norm_num,
    C5_computed_torque_law 1 0 0 (fun _ => 1) 0 (fun _ => 1) (fun _ => 1)
      (fun _ => (Sum.elim ![0, 0, 1] ![0, 0, 0] : V6))
      (fun _ => 1) 0 0 0 1 0 0 (by norm_num)
      0 0 (fun _ => 0) (fun _ => 0) (fun _ => 0) (fun _ => 0) 0
      (fun _ => 1) (fun _ => 1) 1 0 0⟩

/-- **C5 counterexample**: on the trivial one-joint model with `e = 1`,
`eint = 1`, `Kp = Kd = 0`, `Ki = 1`, the code returns `M·(Ki·(eint+e)) = 2`
while the spec's formula `M·(Ki·eint)` gives `1`. -/
theorem C5_counterexample :
    ComputedTorque 1 0 0 (fun _ => 1) 0 (fun _ => 1) (fun _ => 1)
        (fun _ => (Sum.elim ![0, 0, 1] ![0, 0, 0] : V6))
        (fun _ => 1) 0 0 0 1 0 0 ≠
      specComputedTorque 1 0 0 (fun _ => 1) 0 (fun _ => 1) (fun _ => 1)
        (fun _ => (Sum.elim ![0, 0, 1] ![0, 0, 0] : V6))
        (fun _ => 1) 0 0 0 1 0 0 := by
  have hID : InverseDynamics 1 0 0 0 0 0 (fun _ => 1) (fun _ => 1)
      (fun _ => (Sum.elim ![0, 0, 1] ![0, 0, 0] : V6)) 0 = 0 := by
    rw [trivial_model_ID]
    simp
  have hcode : ComputedTorque 1 0 0 (fun _ => 1) 0 (fun _ => 1) (fun _ => 1)
      (fun _ => (Sum.elim ![0, 0, 1] ![0, 0, 0] : V6))
      (fun _ => 1) 0 0 0 1 0 0 = 2 := by
    simp only [ComputedTorque]
    rw [dif_pos (by norm_num : (0:ℕ) < 1), trivial_model_mass, hID]
    simp [Matrix.mulVec, Matrix.dotProduct, Fin.sum_univ_one, dot6_ez]
    norm_num
  have hspec : specComputedTorque 1 0 0 (fun _ => 1) 0 (fun _ => 1) (fun _ => 1)
      (fun _ => (Sum.elim ![0, 0, 1] ![0, 0, 0] : V6))
      (fun _ => 1) 0 0 0 1 0 0 = 1 := by
    simp only [specComputedTorque]
    rw [dif_pos (by norm_num : (0:ℕ) < 1), trivial_model_mass, hID]
    simp [Matrix.mulVec, Matrix.dotProduct, Fin.sum_univ_one, dot6_ez]
  rw [hcode, hspec]
  norm_num

end Theorems

end MR
